import Mathlib

/-!
Verification of the `read-cell` crate (`src/lib.rs`): the `ReadCell<T>` type,
a read-only counterpart of `core::cell::Cell<T>`.

The development uses a shallow embedding at two levels, matching the two
kinds of operations in the source:

* a value level: `ReadCell α` is a structure with one field `value : α`,
  mirroring `pub struct ReadCell<T: ?Sized> { value: UnsafeCell<T> }` with the
  transparent `UnsafeCell` modelled as the bare value.  The owned
  operations (`new`, `into_inner`, `get`, mutation through `get_mut`,
  `clone`, `default`, the comparison impls) are translated here.

* a heap level (`HeapModel`): memory holding values of the element type is a
  function `Mem α := Nat → α` from addresses to values; a shared reference is
  the address it points to.  The reference-reinterpretation operations
  (`from_ref`, `from_cell`, `as_slice_of_cells`, `as_array_of_cells`) are
  pointer casts in the source; since `ReadCell<T>` is a transparent wrapper
  the casts preserve the address, and reading a `ReadCell` dereferences that
  address.  `Cell::set` from the standard library (the aliasing partner of
  `ReadCell::from_cell`) is a write to the cell's address.
-/

/-- Model of `pub struct ReadCell<T: ?Sized> { value: UnsafeCell<T> }`.
`UnsafeCell<T>` is a transparent wrapper over `T`, so the single field is the
contained value itself. -/
structure ReadCell (α : Type) where
  value : α
deriving Repr, DecidableEq

namespace ReadCell

/-- Model of `ReadCell::new`: `ReadCell { value: UnsafeCell::new(value) }`. -/
def new (v : α) : ReadCell α := ⟨v⟩

/-- Model of `ReadCell::into_inner`: `self.value.into_inner()`, returning the
contained value by move. -/
def into_inner (c : ReadCell α) : α := c.value

/-- Model of `ReadCell::get` (requires `T: Copy`): `unsafe { *self.value.get() }`,
a copy of the contained value read through the cell's interior pointer. -/
def get (c : ReadCell α) : α := c.value

/-- Model of an assignment `*c.get_mut() = x`: `get_mut` returns
`self.value.get_mut()`, an exclusive reference to the single field, and
writing `x` through it replaces the contained value with `x`. -/
def get_mut_write (_c : ReadCell α) (x : α) : ReadCell α := ⟨x⟩

/-- Model of `Clone for ReadCell` (requires `T: Copy`):
`ReadCell::new(self.get())`. -/
def clone (c : ReadCell α) : ReadCell α := new c.get

/-- Model of `Default for ReadCell` (requires `T: Default`):
`ReadCell::new(Default::default())`.  The contained type's default value is
the argument `d`, standing for `T::default()`. -/
def default (d : α) : ReadCell α := new d

/-- Model of `PartialEq for ReadCell` (requires `T: PartialEq + Copy`):
`self.get() == other.get()`.  The contained type's equality is the
parameter `beq`, standing for `<T as PartialEq>::eq`. -/
def eq (beq : α → α → Bool) (c other : ReadCell α) : Bool :=
  beq c.get other.get

/-- Model of `PartialOrd::partial_cmp for ReadCell` (requires
`T: PartialOrd + Copy`): `self.get().partial_cmp(&other.get())`.  The
contained type's comparison is the parameter `pc`. -/
def pcmp (pc : α → α → Option Ordering) (c other : ReadCell α) : Option Ordering :=
  pc c.get other.get

/-- Model of `PartialOrd::lt for ReadCell`: `self.get() < other.get()`. -/
def lt (tlt : α → α → Bool) (c other : ReadCell α) : Bool :=
  tlt c.get other.get

/-- Model of `PartialOrd::le for ReadCell`: `self.get() <= other.get()`. -/
def le (tle : α → α → Bool) (c other : ReadCell α) : Bool :=
  tle c.get other.get

/-- Model of `PartialOrd::gt for ReadCell`: `self.get() > other.get()`. -/
def gt (tgt : α → α → Bool) (c other : ReadCell α) : Bool :=
  tgt c.get other.get

/-- Model of `PartialOrd::ge for ReadCell`: `self.get() >= other.get()`. -/
def ge (tge : α → α → Bool) (c other : ReadCell α) : Bool :=
  tge c.get other.get

/-- Model of `Ord::cmp for ReadCell` (requires `T: Ord + Copy`):
`self.get().cmp(&other.get())`. -/
def cmp (tcmp : α → α → Ordering) (c other : ReadCell α) : Ordering :=
  tcmp c.get other.get

end ReadCell

namespace HeapModel

/-- Memory holding one value of the element type at every address. -/
def Mem (α : Type) : Type := Nat → α

/-- Read the value stored at address `a`. -/
def Mem.read (m : Mem α) (a : Nat) : α := m a

/-- Write `v` at address `a`, leaving every other address unchanged. -/
def Mem.write (m : Mem α) (a : Nat) (v : α) : Mem α :=
  fun x => if x = a then v else m x

/-- Model of `Cell::set` from the standard library (the crate's docs mutate
the aliased location through `&Cell<T>` with `set`): a write of `v` to the
cell's address. -/
def Cell.set (m : Mem α) (a : Nat) (v : α) : Mem α := Mem.write m a v

/-- Model of `ReadCell::from_ref`:
`unsafe { &*(t as *const T as *const ReadCell<T>) }`.  The pointer cast
between `T` and the transparent wrapper `ReadCell<T>` preserves the address,
so the resulting `&ReadCell<T>` points where the `&T` pointed. -/
def ReadCell.from_ref (a : Nat) : Nat := a

/-- Model of `ReadCell::from_cell`:
`unsafe { &*(t.as_ptr() as *const ReadCell<T>) }`.  `Cell::as_ptr` returns
the cell's address and the cast preserves it, so the resulting
`&ReadCell<T>` points at the cell's location. -/
def ReadCell.from_cell (a : Nat) : Nat := a

/-- Model of `ReadCell::get` on a reference: `unsafe { *self.value.get() }`
dereferences the cell's interior pointer, reading memory at the reference's
address. -/
def ReadCell.get (m : Mem α) (a : Nat) : α := Mem.read m a

/-- Model of `ReadCell::as_ptr`: `self.value.get()` returns the address of
the interior location, which is the cell's own address (transparent layout). -/
def ReadCell.as_ptr (a : Nat) : Nat := a

/-- Elements of a slice with base address `base` lie at consecutive
addresses; indexing the original `[T]` slice at `i` reads `base + i`. -/
def Slice.read (m : Mem α) (base i : Nat) : α := Mem.read m (base + i)

/-- Contents of the original slice of length `len` at base address `base`. -/
def Slice.toList (m : Mem α) (base len : Nat) : List α :=
  (List.range len).map (fun i => Slice.read m base i)

/-- Model of `ReadCell::as_slice_of_cells`:
`unsafe { &*(self as *const ReadCell<[T]> as *const [ReadCell<T>]) }`.
The cast reuses the same memory with the same base address and length;
because `ReadCell<T>` is layout-identical to `T`, the element views lie at
the same consecutive addresses as the elements, so the resulting
`&[ReadCell<T>]` is the list of per-element addresses `base + i`. -/
def ReadCell.as_slice_of_cells (base len : Nat) : List Nat :=
  (List.range len).map (fun i => base + i)

/-- Indexing the original `[T; N]` array at `i : Fin N` reads `base + i`. -/
def Arr.read (m : Mem α) (base : Nat) (i : Fin N) : α := Mem.read m (base + i.val)

/-- Model of `ReadCell::as_array_of_cells`:
`unsafe { &*(self as *const ReadCell<[T; N]> as *const [ReadCell<T>; N]) }`.
Same cast as `as_slice_of_cells` but with the compile-time length `N`; the
resulting `&[ReadCell<T>; N]` maps index `i : Fin N` to the element view at
address `base + i`. -/
def ReadCell.as_array_of_cells (base : Nat) (N : Nat) : Fin N → Nat :=
  fun i => base + i.val

/-- Model of `PartialEq for ReadCell` on references: `self.get() == other.get()`
where `self` and `other` are the references at addresses `a` and `b`. -/
def ReadCell.eq (beq : α → α → Bool) (m : Mem α) (a b : Nat) : Bool :=
  beq (ReadCell.get m a) (ReadCell.get m b)

/-- Model of `PartialOrd::partial_cmp for ReadCell` on references:
`self.get().partial_cmp(&other.get())`. -/
def ReadCell.pcmp (pc : α → α → Option Ordering) (m : Mem α) (a b : Nat) :
    Option Ordering :=
  pc (ReadCell.get m a) (ReadCell.get m b)

/-- Model of `PartialOrd::lt for ReadCell` on references. -/
def ReadCell.lt (tlt : α → α → Bool) (m : Mem α) (a b : Nat) : Bool :=
  tlt (ReadCell.get m a) (ReadCell.get m b)

/-- Model of `PartialOrd::le for ReadCell` on references. -/
def ReadCell.le (tle : α → α → Bool) (m : Mem α) (a b : Nat) : Bool :=
  tle (ReadCell.get m a) (ReadCell.get m b)

/-- Model of `PartialOrd::gt for ReadCell` on references. -/
def ReadCell.gt (tgt : α → α → Bool) (m : Mem α) (a b : Nat) : Bool :=
  tgt (ReadCell.get m a) (ReadCell.get m b)

/-- Model of `PartialOrd::ge for ReadCell` on references. -/
def ReadCell.ge (tge : α → α → Bool) (m : Mem α) (a b : Nat) : Bool :=
  tge (ReadCell.get m a) (ReadCell.get m b)

/-- Model of `Ord::cmp for ReadCell` on references:
`self.get().cmp(&other.get())`. -/
def ReadCell.cmp (tcmp : α → α → Ordering) (m : Mem α) (a b : Nat) : Ordering :=
  tcmp (ReadCell.get m a) (ReadCell.get m b)

/-- Memory together with an allocation frontier: addresses below `next` are
allocated, `next` is the next fresh address. -/
structure Heap (α : Type) where
  mem : Mem α
  next : Nat

/-- Allocate a fresh location holding `v`, returning its address. -/
def Heap.alloc (h : Heap α) (v : α) : Nat × Heap α :=
  (h.next, ⟨Mem.write h.mem h.next v, h.next + 1⟩)

/-- Read the value at address `a`. -/
def Heap.read (h : Heap α) (a : Nat) : α := Mem.read h.mem a

/-- Write `v` at address `a` (an assignment through `get_mut`). -/
def Heap.write (h : Heap α) (a : Nat) (v : α) : Heap α :=
  ⟨Mem.write h.mem a v, h.next⟩

/-- Model of `Clone for ReadCell` at the heap level:
`ReadCell::new(self.get())` reads the source cell and places the copy in a
newly allocated (hence distinct) owning location, returning its address. -/
def ReadCell.clone_at (h : Heap α) (src : Nat) : Nat × Heap α :=
  Heap.alloc h (Heap.read h src)

/-- Enumeration of the crate's public operations on an existing `ReadCell`
location, one constructor per method of `src/lib.rs`: `get`, `as_ptr`,
`as_slice_of_cells`, `as_array_of_cells`, the `PartialEq` / `PartialOrd` /
`Ord` methods (`eq`, `partial_cmp`, `lt`, `le`, `gt`, `ge`, `cmp`), `clone`,
`into_inner`, the reinterpretations `from_ref` / `from_cell`, and the one
`&mut self` method `get_mut` represented by an assignment through the
reference it returns.  The comparison constructors carry the contained
type's own comparison function. -/
inductive ReadCellOp (α : Type) where
  | getOp (a : Nat)
  | asPtrOp (a : Nat)
  | asSliceOfCellsOp (base len : Nat)
  | asArrayOfCellsOp (base N : Nat)
  | eqOp (beq : α → α → Bool) (a b : Nat)
  | pcmpOp (pc : α → α → Option Ordering) (a b : Nat)
  | ltOp (tlt : α → α → Bool) (a b : Nat)
  | leOp (tle : α → α → Bool) (a b : Nat)
  | gtOp (tgt : α → α → Bool) (a b : Nat)
  | geOp (tge : α → α → Bool) (a b : Nat)
  | cmpOp (tcmp : α → α → Ordering) (a b : Nat)
  | cloneOp (a : Nat)
  | intoInnerOp (a : Nat)
  | fromRefOp (a : Nat)
  | fromCellOp (a : Nat)
  | getMutAssign (a : Nat) (v : α)

/-- Whether the operation is reachable through a shared reference:
every method except `get_mut`, which takes `&mut self`. -/
def ReadCellOp.shared : ReadCellOp α → Bool
  | .getMutAssign _ _ => false
  | _ => true

/-- Effect of each public operation on memory, translated from each method
body in `src/lib.rs`.  Every body except `get_mut` only reads memory or
forms a pointer, so memory is returned unchanged; `get_mut` returns
`self.value.get_mut()`, an exclusive reference through which an assignment
writes the cell's address. -/
def ReadCellOp.exec : ReadCellOp α → Mem α → Mem α
  | .getOp _, m => m
  | .asPtrOp _, m => m
  | .asSliceOfCellsOp _ _, m => m
  | .asArrayOfCellsOp _ _, m => m
  | .eqOp _ _ _, m => m
  | .pcmpOp _ _ _, m => m
  | .ltOp _ _ _, m => m
  | .leOp _ _ _, m => m
  | .gtOp _ _ _, m => m
  | .geOp _ _ _, m => m
  | .cmpOp _ _ _, m => m
  | .cloneOp _, m => m
  | .intoInnerOp _, m => m
  | .fromRefOp _, m => m
  | .fromCellOp _, m => m
  | .getMutAssign a v, m => Mem.write m a v

end HeapModel

/-!
Theorems for the claims.
-/

/-- C1: for a `Cell` initialized with `v1` and reinterpreted by
`ReadCell::from_cell`, `get` on the view returns `v1`; after the cell is set
to `v2` through the original cell reference, `get` on the same view
reference returns `v2`. -/
theorem c1_from_cell_sees_cell_writes (α : Type) (m : HeapModel.Mem α)
    (c : Nat) (v1 v2 : α) (h : HeapModel.Mem.read m c = v1) :
    HeapModel.ReadCell.get m (HeapModel.ReadCell.from_cell c) = v1 ∧
    HeapModel.ReadCell.get (HeapModel.Cell.set m c v2)
      (HeapModel.ReadCell.from_cell c) = v2 := by
  refine ⟨h, ?_⟩
  simp [HeapModel.ReadCell.get, HeapModel.ReadCell.from_cell, HeapModel.Cell.set,
    HeapModel.Mem.write, HeapModel.Mem.read]

/-- C1 witness: the doc-example scenario, a cell holding `1` set to `100`. -/
theorem c1_from_cell_sees_cell_writes_witness :
    HeapModel.ReadCell.get (fun _ => (1 : Nat))
      (HeapModel.ReadCell.from_cell 0) = 1 ∧
    HeapModel.ReadCell.get (HeapModel.Cell.set (fun _ => (1 : Nat)) 0 100)
      (HeapModel.ReadCell.from_cell 0) = 100 :=
  c1_from_cell_sees_cell_writes Nat (fun _ => 1) 0 1 100 rfl

/-- C2: every public operation reachable through a shared reference leaves
memory unchanged, and any operation that changes memory is an assignment
through the exclusive accessor `get_mut`. -/
theorem c2_shared_ops_leave_value_unchanged (α : Type)
    (op : HeapModel.ReadCellOp α) (m : HeapModel.Mem α) :
    (op.shared = true → op.exec m = m) ∧
    (op.exec m ≠ m → ∃ a v, op = HeapModel.ReadCellOp.getMutAssign a v) := by
  constructor
  · intro h
    cases op <;>
      simp_all [HeapModel.ReadCellOp.shared, HeapModel.ReadCellOp.exec]
  · intro h
    cases op <;>
      first
        | exact ⟨_, _, rfl⟩
        | simp_all [HeapModel.ReadCellOp.exec]

/-- C2 witness: `get` at address `0` on a concrete memory leaves it unchanged. -/
theorem c2_shared_ops_leave_value_unchanged_witness :
    HeapModel.ReadCellOp.exec (HeapModel.ReadCellOp.getOp (α := Nat) 0)
      (fun _ => (5 : Nat)) = (fun _ => (5 : Nat)) :=
  (c2_shared_ops_leave_value_unchanged Nat (HeapModel.ReadCellOp.getOp 0)
    (fun _ => 5)).1 rfl

/-- C3: `ReadCell::new(v)` followed by `get` returns `v`, and followed by
`into_inner` returns `v`. -/
theorem c3_new_get_into_inner (α : Type) (v : α) :
    (ReadCell.new v).get = v ∧ (ReadCell.new v).into_inner = v :=
  ⟨rfl, rfl⟩

/-- C4: reinterpreting a plain shared reference to `v` with
`ReadCell::from_ref` and then calling `get` returns `v`. -/
theorem c4_from_ref_get (α : Type) (m : HeapModel.Mem α) (a : Nat) (v : α)
    (h : HeapModel.Mem.read m a = v) :
    HeapModel.ReadCell.get m (HeapModel.ReadCell.from_ref a) = v := h

/-- C4 witness: a location holding `5`, read through `from_ref`. -/
theorem c4_from_ref_get_witness :
    HeapModel.ReadCell.get (fun _ => (5 : Nat))
      (HeapModel.ReadCell.from_ref 3) = 5 :=
  c4_from_ref_get Nat (fun _ => 5) 3 5 rfl

/-- C5: `as_slice_of_cells` on a view of a slice of length `len` yields
`len` per-element views whose reads are exactly the original slice's
elements, and `as_array_of_cells` on a view of an `N`-element array yields
per-element views whose read at each index `i` is the original array's
element at `i`. -/
theorem c5_distribution (α : Type) (m : HeapModel.Mem α) (base len N : Nat) :
    (HeapModel.ReadCell.as_slice_of_cells base len).length = len ∧
    (HeapModel.ReadCell.as_slice_of_cells base len).map (HeapModel.ReadCell.get m)
      = HeapModel.Slice.toList m base len ∧
    ∀ i : Fin N,
      HeapModel.ReadCell.get m (HeapModel.ReadCell.as_array_of_cells base N i)
        = HeapModel.Arr.read m base i := by
  refine ⟨?_, ?_, fun i => rfl⟩
  · simp [HeapModel.ReadCell.as_slice_of_cells]
  · simp [HeapModel.ReadCell.as_slice_of_cells, HeapModel.Slice.toList,
      HeapModel.Slice.read, HeapModel.ReadCell.get, List.map_map]

/-- C6: after assigning `x` through the reference returned by `get_mut`,
`get` returns `x` and `into_inner` returns `x`. -/
theorem c6_get_mut_read_write (α : Type) (c : ReadCell α) (x : α) :
    (c.get_mut_write x).get = x ∧ (c.get_mut_write x).into_inner = x :=
  ⟨rfl, rfl⟩

/-- C7: every comparison of two `ReadCell`s delegates to the contained
type's comparison of the two copied-out current values (`eq`, `partial_cmp`
modelled as `pcmp`, `lt`, `le`, `gt`, `ge`, `cmp`), and at the heap level
the result depends only on the stored values, never on the operands'
addresses: references whose reads agree compare identically. -/
theorem c7_compare_by_value (α : Type)
    (beq tlt tle tgt tge : α → α → Bool)
    (pc : α → α → Option Ordering) (tcmp : α → α → Ordering)
    (c other : ReadCell α) (m : HeapModel.Mem α) (a a' b b' : Nat)
    (ha : HeapModel.ReadCell.get m a = HeapModel.ReadCell.get m a')
    (hb : HeapModel.ReadCell.get m b = HeapModel.ReadCell.get m b') :
    ReadCell.eq beq c other = beq c.get other.get ∧
    ReadCell.pcmp pc c other = pc c.get other.get ∧
    ReadCell.lt tlt c other = tlt c.get other.get ∧
    ReadCell.le tle c other = tle c.get other.get ∧
    ReadCell.gt tgt c other = tgt c.get other.get ∧
    ReadCell.ge tge c other = tge c.get other.get ∧
    ReadCell.cmp tcmp c other = tcmp c.get other.get ∧
    HeapModel.ReadCell.eq beq m a b = HeapModel.ReadCell.eq beq m a' b' ∧
    HeapModel.ReadCell.pcmp pc m a b = HeapModel.ReadCell.pcmp pc m a' b' ∧
    HeapModel.ReadCell.lt tlt m a b = HeapModel.ReadCell.lt tlt m a' b' ∧
    HeapModel.ReadCell.le tle m a b = HeapModel.ReadCell.le tle m a' b' ∧
    HeapModel.ReadCell.gt tgt m a b = HeapModel.ReadCell.gt tgt m a' b' ∧
    HeapModel.ReadCell.ge tge m a b = HeapModel.ReadCell.ge tge m a' b' ∧
    HeapModel.ReadCell.cmp tcmp m a b = HeapModel.ReadCell.cmp tcmp m a' b' := by
  refine ⟨rfl, rfl, rfl, rfl, rfl, rfl, rfl, ?_, ?_, ?_, ?_, ?_, ?_, ?_⟩ <;>
    simp [HeapModel.ReadCell.eq, HeapModel.ReadCell.pcmp, HeapModel.ReadCell.lt,
      HeapModel.ReadCell.le, HeapModel.ReadCell.gt, HeapModel.ReadCell.ge,
      HeapModel.ReadCell.cmp, ha, hb]

/-- C7 witness: distinct addresses `0, 1` versus `2, 3` in a constant memory
hold equal values, so equality of the cells at `0` and `1` coincides with
equality of the cells at `2` and `3`. -/
theorem c7_compare_by_value_witness :
    HeapModel.ReadCell.eq (fun x y : Nat => x == y) (fun _ => (4 : Nat)) 0 1
      = HeapModel.ReadCell.eq (fun x y : Nat => x == y) (fun _ => (4 : Nat)) 2 3 :=
  (c7_compare_by_value Nat (fun x y => x == y) (fun x y => decide (x < y))
    (fun x y => decide (x ≤ y)) (fun x y => decide (y < x)) (fun x y => decide (y ≤ x))
    (fun x y => some (compare x y)) compare
    (ReadCell.new 0) (ReadCell.new 0) (fun _ => 4) 0 2 1 3 rfl rfl).2.2.2.2.2.2.2.1

/-- C8: cloning a `ReadCell` produces a new owning instance whose `get`
returns the current value of the source (in particular `v` when the source
holds `v`), and `ReadCell::default()` produces an instance whose `get`
returns the contained type's default value. -/
theorem c8_clone_and_default (α : Type) (v d : α) :
    (∀ c : ReadCell α, c.clone.get = c.get) ∧
    (ReadCell.new v).clone.get = v ∧
    (ReadCell.default d).get = d :=
  ⟨fun _ => rfl, rfl, rfl⟩

/-- C10: cloning allocates an independent owning instance: after writing `x`
into the original cell through `get_mut`, reading the clone still returns
the value the original held at the moment of cloning.  The hypothesis says
the source cell is an allocated location, so the clone's fresh address is
distinct from it. -/
theorem c10_clone_is_independent (α : Type) (h : HeapModel.Heap α)
    (src : Nat) (x : α) (hsrc : src < h.next) :
    HeapModel.Heap.read
      (HeapModel.Heap.write (HeapModel.ReadCell.clone_at h src).2 src x)
      (HeapModel.ReadCell.clone_at h src).1
      = HeapModel.Heap.read h src := by
  have hne : h.next ≠ src := Nat.ne_of_gt hsrc
  simp [HeapModel.ReadCell.clone_at, HeapModel.Heap.alloc, HeapModel.Heap.read,
    HeapModel.Heap.write, HeapModel.Mem.write, HeapModel.Mem.read, hne]

/-- C10 witness: a one-cell heap holding `7`; after cloning and writing `42`
into the original, the clone still reads `7`. -/
theorem c10_clone_is_independent_witness :
    HeapModel.Heap.read
      (HeapModel.Heap.write
        (HeapModel.ReadCell.clone_at ⟨fun _ => (7 : Nat), 1⟩ 0).2 0 42)
      (HeapModel.ReadCell.clone_at ⟨fun _ => (7 : Nat), 1⟩ 0).1
      = HeapModel.Heap.read ⟨fun _ => (7 : Nat), 1⟩ 0 :=
  c10_clone_is_independent Nat ⟨fun _ => 7, 1⟩ 0 42 (by decide)
